import Mathlib

/-!
# Verification of the SeedVR2 inference orchestration core

Shallow embedding of `src/core/generation.py`, `src/core/infer.py` and the
parts of `src/optimization/memory_manager.py` they use, together with
theorems settling the specification claims about them.

Conventions:
* Python integers are `Nat` or `Int` (matching the sign behaviour of the
  source expression); tensor values are `ℚ`.
* A video tensor is modelled along the axis a function inspects: a list of
  frames for the temporal axis, a shape list for layout bookkeeping, or a
  function from indices to values where entries matter.
* External collaborators (the VAE forward pass, the DiT, torch devices) are
  parameters of the embedded functions.
* Fallible code returns `Except PyErr`.
-/

/-- Python runtime errors that the embedded code can raise. -/
inductive PyErr where
  | nameError : PyErr
  | notImplementedError : PyErr
  | assertionError : PyErr
  | valueError : PyErr
  deriving DecidableEq, Repr

/-! ## Torch dtypes and the precision planner (C2)

`generation.py` lines 86-98 (`generation_step`), lines 245-271
(`generation_loop`), and `infer.py` lines 538-552 (`inference`) each select
working dtypes from the dtype of the loaded DiT weights. -/

/-- The torch floating dtypes the planner code distinguishes. -/
inductive DType where
  | float8e4m3fn : DType
  | float8e5m2 : DType
  | float16 : DType
  | bfloat16 : DType
  | float32 : DType
  deriving DecidableEq, Repr

/-- Model of `generation_step` dtype selection (`generation.py` lines 89-98):
returns `(dtype, autocast_dtype)` from the loaded DiT weight dtype. -/
def generationStepDtypes (modelDtype : DType) : DType × DType :=
  if modelDtype = .float8e4m3fn ∨ modelDtype = .float8e5m2 then
    (.bfloat16, .bfloat16)
  else if modelDtype = .float16 then
    (.float16, .float16)
  else
    (.bfloat16, .bfloat16)

/-- Model of `generation_loop` dtype selection (`generation.py` lines 252-264):
returns `(compute_dtype, autocast_dtype, vae_dtype)`. -/
def generationLoopDtypes (modelDtype : DType) : DType × DType × DType :=
  if modelDtype = .float8e4m3fn ∨ modelDtype = .float8e5m2 then
    (.bfloat16, .bfloat16, .bfloat16)
  else if modelDtype = .float16 then
    (.float16, .float16, .float16)
  else
    (.bfloat16, .bfloat16, .bfloat16)

/-- Model of `inference` target dtype selection (`infer.py` lines 543-552): the dtype
used to cast the text embeddings and the latents, and as the autocast dtype
of the sampler.  Note the source here assigns `torch.float16` on the FP8
branch (whose comment announces BFloat16) and `torch.bfloat16` on the FP16
branch. -/
def inferenceTargetDtype (modelDtype : DType) : DType :=
  if modelDtype = .float8e4m3fn ∨ modelDtype = .float8e5m2 then
    .float16
  else if modelDtype = .float16 then
    .bfloat16
  else
    .bfloat16

/-! ## `cut_videos` — the 4n+1 temporal padding (C3)

`generation.py` lines 174-201.  The function only inspects and edits the
temporal axis (dim 1) of its input, so a video is modelled as the list of
its frames along that axis; a frame is an arbitrary type `α`. -/

/-- Model of `cut_videos` (`generation.py` lines 189-201): if the frame count `t`
satisfies `t % 4 == 1` the video is returned unchanged, otherwise
`(4 - (t % 4)) % 4 + 1` copies of the last frame are appended. -/
def cutVideos {α : Type} [Inhabited α] (videos : List α) : List α :=
  let t := videos.length
  if t % 4 = 1 then
    videos
  else
    let paddingNeeded := (4 - t % 4) % 4 + 1
    videos ++ List.replicate paddingNeeded (videos.getLastD default)

/-- Frame count of `cut_videos` output as a function of the input count. -/
def cutLen (t : ℕ) : ℕ :=
  if t % 4 = 1 then t else t + ((4 - t % 4) % 4 + 1)

/-! ## Batch splitting in `generation_loop` (C5, C1)

`generation.py` lines 329-332 compute the iteration step, lines 350-390
enumerate the batches with their start/end frame indices and the early
stop, and lines 459-463 trim each batch's sample back to its recorded
original length before it is appended to `batch_samples`; lines 572-617
concatenate all batch samples into the returned tensor. -/

/-- Model of `generation_loop` lines 329-332: `step = batch_size - temporal_overlap`
(Python int subtraction); when `step <= 0`, step is reset to `batch_size`
and `temporal_overlap` to 0.  Returns the effective pair
`(step, temporal_overlap)`. -/
def stepAndOverlap (batchSize temporalOverlap : ℤ) : ℤ × ℤ :=
  let step := batchSize - temporalOverlap
  if step ≤ 0 then (batchSize, 0) else (step, temporalOverlap)

/-- The loop `for batch_count, batch_idx in enumerate(range(0, len(images), step))`
(`generation.py` lines 350-390) restricted to its frame-range bookkeeping:
starting from origin `i`, emit `(start_idx, end_idx)` pairs where
`end_idx = min(i + batch_size, N)`, stopping (Python `break`) on a
non-first batch whose `effective_batch_size <= temporal_overlap`.
`fuel` bounds the recursion; `batchRanges` supplies enough of it. -/
def batchRangesFrom (N bs ov step : ℕ) : ℕ → ℕ → List (ℕ × ℕ)
  | 0, _ => []
  | fuel + 1, i =>
    if i < N then
      let e := min (i + bs) N
      if i ≠ 0 ∧ e - i ≤ ov then []
      else (i, e) :: batchRangesFrom N bs ov step fuel (i + step)
    else []

/-- The list of `(start_idx, end_idx)` frame ranges processed by
`generation_loop` for `N` input frames. -/
def batchRanges (N bs ov : ℕ) : List (ℕ × ℕ) :=
  let so := stepAndOverlap (bs : ℤ) (ov : ℤ)
  batchRangesFrom N bs so.2.toNat so.1.toNat (N + 1) 0

/-- Modelled from the spec: the VAE encode → DiT sample → VAE decode round
trip (the VAE and DiT forward passes are external to `src/`) returns as many
frames as the padded batch it was given — "The number of output frames for
a batch equals the number of input frames to that batch, modulo the 4n+1
pad which is trimmed after decode using the recorded original length". -/
def vaeRoundTripLen (t : ℕ) : ℕ := t

/-- Frame count of the sample a batch `(s, e)` appends to `batch_samples`:
the transform keeps `e - s` frames (`ori_lengths`, line 413); `cut_videos`
pads when `N >= 5` and the count violates the 4n+1 invariant (line 420);
the round trip keeps the padded count; lines 462-463 trim back to
`ori_lengths[0]` when the sample is longer. -/
def batchOutputLen (N s e : ℕ) : ℕ :=
  let ori := e - s
  let enc := if 5 ≤ N ∧ ori % 4 ≠ 1 then cutLen ori else ori
  let dec := vaeRoundTripLen enc
  if ori < dec then ori else dec

/-- Total frame count of the tensor returned by `generation_loop`
(lines 572-617 concatenate every batch sample). -/
def totalOutputFrames (N bs ov : ℕ) : ℕ :=
  ((batchRanges N bs ov).map (fun r => batchOutputLen N r.1 r.2)).sum

/-! ## `get_condition` (C6)

`infer.py` lines 74-98.  A latent is a channels-last 4-axis tensor
`(t, h, w, c)`; entries are read through a total index function (indices
beyond the shape are never inspected by the theorems). -/

/-- A 4-axis tensor `(t, h, w, c)` in channels-last layout with rational
entries. -/
structure Tensor4 where
  t : ℕ
  h : ℕ
  w : ℕ
  c : ℕ
  data : ℕ → ℕ → ℕ → ℕ → ℚ

/-- The slice assignments `cond[:, ..., :-1] = latent_blur[:]` and
`cond[:, ..., -1:] = 1.0` shared by the two `sr` branches of
`get_condition` (`infer.py` lines 80-81 and 95-96), applied to the zero
tensor. -/
def srCondData (latentBlur : Tensor4) (c : ℕ) : ℕ → ℕ → ℕ → ℕ → ℚ :=
  fun i j k l => if l < c then latentBlur.data i j k l else 1

/-- Model of `get_condition` (`infer.py` lines 74-98): allocates a zero
`(t, h, w, c+1)` tensor and fills it by per-task slice assignments; raises
`NotImplementedError` on a task tag that reaches the end.  The first
branch is entered whenever `task == "t2v"` **or** `t == 1`, so for a
single-frame latent every task other than `"sr"` (including unknown tags)
returns the zero condition. -/
def getCondition (latent latentBlur : Tensor4) (task : String) : Except PyErr Tensor4 :=
  let t := latent.t
  let h := latent.h
  let w := latent.w
  let c := latent.c
  if task = "t2v" ∨ t = 1 then
    if task = "sr" then
      .ok ⟨t, h, w, c + 1, srCondData latentBlur c⟩
    else
      .ok ⟨t, h, w, c + 1, fun _ _ _ _ => 0⟩
  else if task = "i2v" then
    .ok ⟨t, h, w, c + 1, fun i j k l =>
      if i < 1 then (if l < c then latent.data i j k l else 1) else 0⟩
  else if task = "v2v" then
    .ok ⟨t, h, w, c + 1, fun i j k l =>
      if i < 2 then (if l < c then latent.data i j k l else 1) else 0⟩
  else if task = "sr" then
    .ok ⟨t, h, w, c + 1, srCondData latentBlur c⟩
  else
    .error .notImplementedError

/-! ## `inference` control flow: device residency and the memory-fraction
governor (C7, C10)

`VideoDiffusionInfer.inference` (`infer.py` lines 496-867).  The skeleton
below keeps exactly the observables these claims are about: the length
assertion and empty-batch early return (lines 512-517), the DiT/VAE device
moves under `dit_vram_flag` (lines 589-643, 779-812), the memory-fraction
governor before sampling (lines 649-690), and the fraction reset after
decode (lines 860-865).  The sampler and the VAE decode are external calls
that do not touch these observables; each returned sample is abstracted to
`()`. -/

/-- A torch device. -/
inductive Device where
  | cpu : Device
  | gpu : Device
  deriving DecidableEq, Repr

/-- Ambient facts `inference` queries but does not control. -/
structure InferEnv where
  /-- Model of `torch.cuda.is_available()` -/
  cudaAvailable : Bool
  /-- Model of `hasattr(torch.cuda, 'set_per_process_memory_fraction')` -/
  hasFractionAPI : Bool
  /-- Model of `hasattr(self, '_blockswap_active') and self._blockswap_active` -/
  blockswapActive : Bool
  /-- the DiT has blocks and `blocks[0]` carries `_original_forward`
  (computed identically at lines 613-617 and 667-671) -/
  blocksHaveSwap : Bool
  /-- reserved GB reported by `release_reserved_memory()` (`res_after`) -/
  resAfterRelease : ℚ
  /-- Model of `conditions[0].shape[0]` -/
  condFrames : ℕ
  /-- Model of `latents[0].shape[0]` after `na.unflatten` -/
  latentFrames : ℕ

/-- The observable state `inference` mutates. -/
structure InferState where
  ditDevice : Device
  vaeDevice : Device
  memoryFraction : ℚ
  /-- arguments of `torch.cuda.set_per_process_memory_fraction` calls, in
  call order -/
  fractionSets : List ℚ
  deriving DecidableEq, Repr

/-- Model of `torch.cuda.set_per_process_memory_fraction(q)`. -/
def setFraction (st : InferState) (q : ℚ) : InferState :=
  { st with memoryFraction := q, fractionSets := st.fractionSets ++ [q] }

/-- The memory fraction chosen before sampling (`infer.py` lines 672-682):
no cap when the blocks are not wrapped for swap, 80% when fewer than 4 GB
stay reserved after the release, 60% otherwise. -/
def memoryFractionChoice (blocksConfigured : Bool) (resAfter : ℚ) : ℚ :=
  if ¬blocksConfigured then 1
  else if resAfter < 4 then 8/10
  else 6/10

/-- Control-flow skeleton of `VideoDiffusionInfer.inference` over the
observables described above.  `nNoises`/`nConds`/`nPos`/`nNeg` are the
lengths of the four input lists. -/
def inference (env : InferEnv) (nNoises nConds nPos nNeg : ℕ)
    (preserveVram useBlockswap : Bool) (ditPreserveVram : Option Bool)
    (st0 : InferState) : Except PyErr (List Unit × InferState) :=
  -- line 512: assert len(noises) == len(conditions) == len(texts_pos) == len(texts_neg)
  if ¬(nNoises = nConds ∧ nConds = nPos ∧ nPos = nNeg) then
    .error .assertionError
  else
    let batchSize := nNoises
    -- lines 515-517: return [] if empty, before any device or memory work
    if batchSize = 0 then
      .ok ([], st0)
    else
      -- lines 523-529 release reserved memory under block swap; no
      -- fraction is set there (note at line 531)
      -- line 590
      let ditVramFlag := ditPreserveVram.getD preserveVram
      -- lines 592-598: VAE to CPU when conditions carry several frames
      let st1 := if ditVramFlag ∧ 1 < env.condFrames
        then { st0 with vaeDevice := .cpu } else st0
      -- lines 622-643: move DiT to GPU only when block swap is inactive
      let blockswapIsActive :=
        env.blockswapActive ∨ (useBlockswap ∧ env.blocksHaveSwap)
      let st2 := if ditVramFlag ∧ ¬blockswapIsActive
        then { st1 with ditDevice := .gpu } else st1
      -- lines 649-690: the memory-fraction governor
      let st3 := if useBlockswap ∧ env.cudaAvailable ∧ env.hasFractionAPI
        then setFraction st2
          (memoryFractionChoice env.blocksHaveSwap env.resAfterRelease)
        else st2
      -- lines 719-763: sampler (external; no observable effect here)
      -- lines 779-783: DiT back to CPU
      let st4 := if ditVramFlag then { st3 with ditDevice := .cpu } else st3
      -- lines 801-812: VAE to GPU for multi-frame latents
      let st5 := if ditVramFlag ∧ 1 < env.latentFrames
        then { st4 with vaeDevice := .gpu } else st4
      -- line 821: vae_decode (external)
      -- lines 860-865: restore the fraction to 100%
      let st6 := if useBlockswap ∧ env.cudaAvailable ∧ env.hasFractionAPI
        then setFraction st5 1
        else st5
      .ok (List.replicate batchSize (), st6)

/-! ## VAE decode and tiled decode: shape routing and failure (C4, C8)

`vae_decode` (`infer.py` lines 165-279) and `_tiled_vae_decode`
(lines 282-406).  For these claims the decode paths are modelled at the
shape level: a tensor is its shape list, the external
`self.vae.decode(...).sample` is a parameter, and scale/shift arithmetic
(shape-invariant) is dropped.  Crucially, `_tiled_vae_decode`'s parameter
list is `(self, latents, target_dtype, tile_size, tile_stride)` and no
binding of the name `preserve_vram` exists in its scope or at module level
of `infer.py`, yet lines 321 and 362 pass `preserve_vram` to
`self.vae.decode`; Python evaluates call arguments before the call, so
reaching either line raises `NameError`. -/

/-- A tensor abstracted to its shape. -/
structure STensor where
  shape : List ℕ
  deriving DecidableEq, Repr

/-- Model of `latent.unsqueeze(0)` (`infer.py` line 208). -/
def unsqueeze0 (t : STensor) : STensor :=
  ⟨1 :: t.shape⟩

/-- Model of `rearrange(latent, "b ... c -> b c ...")` (`infer.py` lines 222, 311):
the last axis moves to position 1. -/
def rearrangeToCF (t : STensor) : STensor :=
  match t.shape with
  | [] => t
  | b :: rest =>
    if rest = [] then ⟨[b]⟩
    else ⟨b :: rest.getLastD 0 :: rest.dropLast⟩

/-- Model of `latent.squeeze(2)` (`infer.py` lines 255, 320, 325): drops axis 2 when
it has extent 1, otherwise a no-op. -/
def squeezeAt2 (t : STensor) : STensor :=
  if 2 < t.shape.length ∧ t.shape.getD 2 0 = 1 then
    ⟨t.shape.take 2 ++ t.shape.drop 3⟩
  else t

/-- Model of `sample.squeeze(0)` (`infer.py` line 274, ungrouping). -/
def squeeze0 (t : STensor) : STensor :=
  match t.shape with
  | 1 :: rest => ⟨rest⟩
  | _ => t

/-- Model of `optimized_channels_to_last` (`infer.py` lines 38-52, applied at
line 400): axis 1 moves to the last position. -/
def channelsToLast (t : STensor) : STensor :=
  match t.shape with
  | b :: c :: rest => ⟨b :: (rest ++ [c])⟩
  | _ => t

/-- The read of the name `preserve_vram` inside `_tiled_vae_decode`
(`infer.py` lines 321 and 362): the function's parameters are
`(self, latents, target_dtype, tile_size, tile_stride)` and `infer.py`
binds `preserve_vram` neither locally in this function nor at module
level, so evaluating the name raises `NameError`. -/
def tiledDecodePreserveVram : Except PyErr Bool :=
  .error .nameError

/-- Python `range(0, stop, step)` for `step ≥ 1`. -/
def pyRange (stop step : ℕ) : List ℕ :=
  (List.range ((stop + step - 1) / step)).map (· * step)

/-- Tile origins along one axis (`infer.py` lines 344-351): `range(0, ext,
stride)` with the `continue` that skips an origin whose tile is already
covered by the previous one. -/
def tileOrigins (ext stride tile : ℕ) : List ℕ :=
  (pyRange ext stride).filter
    (fun y => ¬(0 < y ∧ ext < y + tile ∧ ext ≤ y - stride + tile))

/-- The temporal-frame count `_tiled_vae_decode` sees for a latent
(`infer.py` line 314): `latent.shape[2] if latent.ndim >= 5 else 1`,
computed after the channels-first rearrange. -/
def tiledTemporalFrames (lat : STensor) : ℕ :=
  let l1 := rearrangeToCF lat
  if 5 ≤ l1.shape.length then l1.shape.getD 2 0 else 1

/-- Model of `_tiled_vae_decode` (`infer.py` lines 282-406) for one latent of the
input list, at the granularity of shape routing and success/failure.
`decodeFn` abstracts `self.vae.decode(...).sample` and `post` the optional
`self.vae.postprocess`.  Both decode sites pass the unbound name
`preserve_vram`, modelled by binding `tiledDecodePreserveVram` before the
decode result is used. -/
def tiledDecodeOne (decodeFn : STensor → Bool → STensor)
    (post : Option (STensor → STensor))
    (tileSize tileStride : ℕ × ℕ) (lat : STensor) : Except PyErr STensor := do
  -- lines 309-311: move/scale/shift (shape-invariant), channels first
  let l1 := rearrangeToCF lat
  if 1 < tiledTemporalFrames lat then
    -- lines 317-321: temporal fallback — `self.vae.decode(latent, preserve_vram)`
    let l2 := squeezeAt2 l1
    let pv ← tiledDecodePreserveVram
    let s := decodeFn l2 pv
    let s2 := match post with
      | some p => p s
      | none => s
    -- line 400 applies to this branch as well
    return channelsToLast s2
  else
    -- lines 324-325
    let l2 := if l1.shape.length = 5 then squeezeAt2 l1 else l1
    match l2.shape with
    | [b, _c, h, w] =>
      -- lines 339-387: tile loop; each tile evaluates
      -- `self.vae.decode(tile_latent, preserve_vram)`
      let ys := tileOrigins h tileStride.1 tileSize.1
      let xs := tileOrigins w tileStride.2 tileSize.2
      let pairs := ys.flatMap (fun y => xs.map (fun x => (y, x)))
      let _ ← pairs.foldlM (fun (u : Unit) _ => do
          let _ ← tiledDecodePreserveVram
          pure u) ()
      -- lines 331-336 and 391-393: the accumulators have shape
      -- (b, 3, 8h, 8w) and so does `output / weight.clamp(min=1e-8)`
      let s : STensor := ⟨[b, 3, 8 * h, 8 * w]⟩
      let s2 := match post with
        | some p => p s
        | none => s
      return channelsToLast s2
    | _ =>
      -- `b, c, h, w = latent.shape` unpack failure
      .error .valueError

/-- Model of `vae_decode` (`infer.py` lines 165-279) for one latent in the
non-grouping configuration (`config.vae.grouping` false, lines 207-208 and
273-274), with frame-by-frame decoding hard-disabled (line 231), so the
`else` branch at lines 254-256 runs.  Here `preserve_vram` **is** a bound
parameter (line 166), so the decode call succeeds; no channels-to-last
rearrange is applied to the output. -/
def vaeDecodeOne (decodeFn : STensor → Bool → STensor)
    (post : Option (STensor → STensor)) (preserveVram : Bool)
    (lat : STensor) : Except PyErr STensor :=
  let l1 := rearrangeToCF (unsqueeze0 lat)
  let l2 := squeezeAt2 l1
  let s := decodeFn l2 preserveVram
  let s2 := match post with
    | some p => p s
    | none => s
  .ok (squeeze0 s2)

/-- A stand-in for the external VAE forward pass used to evaluate the
decode paths on concrete latents: a `(b, c, h, w)` latent decodes to
`(b, 3, 8h, 8w)` and a `(b, c, t, h, w)` latent to `(b, 3, t, 8h, 8w)`. -/
def mockDecode : STensor → Bool → STensor :=
  fun s _ =>
    match s.shape with
    | [b, _, h, w] => ⟨[b, 3, 8 * h, 8 * w]⟩
    | [b, _, t, h, w] => ⟨[b, 3, t, 8 * h, 8 * w]⟩
    | sh => ⟨sh⟩

/-! ## The tile blend mask and overlap blending (C9)

`_create_tile_mask` (`infer.py` lines 408-442) builds a separable 2D blend
mask, and `_tiled_vae_decode` lines 378-381 and 391-393 accumulate
`tile * mask` into `output` and `mask` into `weight` at the tile's scaled
position and finally emit `output / weight.clamp(min=1e-8)`.  Here CPU
accumulator planes are functions `ℕ → ℕ → ℚ` (one channel suffices: the
mask is broadcast identically over batch and channels) and the decoded
tiles are data. -/

/-- Model of `torch.linspace(a, b, n)`: `n` evenly spaced values from `a` to `b`
inclusive (`[a]` when `n = 1`). -/
def linspaceQ (a b : ℚ) (n : ℕ) : List ℚ :=
  if n = 1 then [a]
  else (List.range n).map (fun i : ℕ => a + (b - a) * (i : ℚ) / ((n : ℚ) - 1))

/-- Model of `mask[:len(g)] = g` (`infer.py` lines 422, 430). -/
def writeHead (l g : List ℚ) : List ℚ :=
  g ++ l.drop g.length

/-- Model of `mask[-len(g):] = g` (`infer.py` lines 426, 434), for `1 ≤ len(g) ≤ len(l)`. -/
def writeTail (l g : List ℚ) : List ℚ :=
  l.take (l.length - g.length) ++ g

/-- One 1D blend mask of `_create_tile_mask` (`infer.py` lines 414-434):
all ones, then a `linspace(0,1,min(border,m))` written at the leading edge
when that edge is not on the outer boundary (and the border is positive),
then a `linspace(1,0,min(border,m))` written at the trailing edge under
the same conditions. -/
def mask1D (m : ℕ) (isBoundaryLead isBoundaryTrail : Bool) (border : ℤ) : List ℚ :=
  let base := List.replicate m (1 : ℚ)
  let len := min border.toNat m
  let s1 := if ¬isBoundaryLead ∧ 0 < border
    then writeHead base (linspaceQ 0 1 len) else base
  if ¬isBoundaryTrail ∧ 0 < border
    then writeTail s1 (linspaceQ 1 0 len) else s1

/-- The 2D mask `_create_tile_mask` returns: shape `(b, 1, h, w)`, values
given by the outer product `h_mask.view(-1,1) * w_mask.view(1,-1)`
(`infer.py` lines 437-442), identical across batch and channel. -/
structure TileMask where
  b : ℕ
  h : ℕ
  w : ℕ
  at2 : ℕ → ℕ → ℚ

/-- Model of `_create_tile_mask(shape, is_boundary, border_width)` (`infer.py`
lines 408-442); `is_boundary = (top, bottom, left, right)`,
`border_width = (border_h, border_w)`. -/
def createTileMask (shape : ℕ × ℕ × ℕ × ℕ)
    (isBoundary : Bool × Bool × Bool × Bool) (borderWidth : ℤ × ℤ) : TileMask :=
  let h := shape.2.2.1
  let w := shape.2.2.2
  let hMask := mask1D h isBoundary.1 isBoundary.2.1 borderWidth.1
  let wMask := mask1D w isBoundary.2.2.1 isBoundary.2.2.2 borderWidth.2
  ⟨shape.1, h, w, fun i j => hMask.getD i 0 * wMask.getD j 0⟩

/-- Value `i/(len-1)` of a leading `0 → 1` linear ramp over `len` samples
(`0` when the ramp has a single sample). -/
def rampValLead (len i : ℕ) : ℚ :=
  if len = 1 then 0 else (i : ℚ) / ((len : ℚ) - 1)

/-- Value `1 - k/(len-1)` of a trailing `1 → 0` linear ramp over `len`
samples (`1` when the ramp has a single sample). -/
def rampValTrail (len k : ℕ) : ℚ :=
  if len = 1 then 1 else 1 - (k : ℚ) / ((len : ℚ) - 1)

/-- The claimed closed form of one 1D blend mask: constant 1 except at
edges not on the outer boundary, where it ramps linearly from 0 to 1
(leading) or 1 to 0 (trailing) over `min(border, m)` samples; the
trailing write is last, so it prevails where the two ramps overlap. -/
def rampSpec (m : ℕ) (isBLead isBTrail : Bool) (border : ℤ) (i : ℕ) : ℚ :=
  let len := min border.toNat m
  if ¬isBTrail ∧ 0 < border ∧ m - len ≤ i then rampValTrail len (i - (m - len))
  else if ¬isBLead ∧ 0 < border ∧ i < len then rampValLead len i
  else 1

/-- One emitted tile of the accumulation loop (`infer.py` lines 354-381):
its output-space origin `(oy·U, ox·U)` — here already scaled — extents,
decoded sample values and blend-mask values (one channel plane; the mask
broadcasts identically over batch and channels). -/
structure TileContrib where
  oy : ℕ
  ox : ℕ
  th : ℕ
  tw : ℕ
  sample : ℕ → ℕ → ℚ
  mask : ℕ → ℕ → ℚ

/-- Whether output pixel `(i, j)` lies in the slice
`output[:, :, out_y:out_y_end, out_x:out_x_end]` of a tile. -/
def coversTile (t : TileContrib) (i j : ℕ) : Bool :=
  decide (t.oy ≤ i) && decide (i < t.oy + t.th) &&
    decide (t.ox ≤ j) && decide (j < t.ox + t.tw)

/-- The slice-accumulate of one tile (`infer.py` lines 380-381):
`output[..] += tile_cpu * mask` and `weight[..] += mask`, on the pair of
accumulator planes. -/
def applyTile (ow : (ℕ → ℕ → ℚ) × (ℕ → ℕ → ℚ)) (t : TileContrib) :
    (ℕ → ℕ → ℚ) × (ℕ → ℕ → ℚ) :=
  (fun i j => if coversTile t i j
      then ow.1 i j + t.sample (i - t.oy) (j - t.ox) * t.mask (i - t.oy) (j - t.ox)
      else ow.1 i j,
   fun i j => if coversTile t i j
      then ow.2 i j + t.mask (i - t.oy) (j - t.ox)
      else ow.2 i j)

/-- Folding the tile loop over the zero-initialized accumulators
(`infer.py` lines 335-336 and the loop of lines 344-383). -/
def accumTiles (tiles : List TileContrib) : (ℕ → ℕ → ℚ) × (ℕ → ℕ → ℚ) :=
  tiles.foldl applyTile (fun _ _ => 0, fun _ _ => 0)

/-- The constant `1e-8`, the clamp floor of `weight.clamp(min=1e-8)` (`infer.py`
line 392). -/
def epsClamp : ℚ := 1 / 100000000

/-- Model of `output / weight.clamp(min=1e-8)` (`infer.py` line 392), pointwise. -/
def tiledBlendResult (tiles : List TileContrib) (i j : ℕ) : ℚ :=
  (accumTiles tiles).1 i j / max ((accumTiles tiles).2 i j) epsClamp

/-! ## Theorems -/

theorem cutVideos_length {α : Type} [Inhabited α] (videos : List α) :
    (cutVideos videos).length = cutLen videos.length := by
  unfold cutVideos cutLen
  by_cases h : videos.length % 4 = 1 <;> simp [h]

theorem cutLen_ge (t : ℕ) : t ≤ cutLen t := by
  unfold cutLen
  by_cases h : t % 4 = 1 <;> simp [h]

/-- C3: for every nonempty video, `cut_videos` returns the input unchanged
when `T ≡ 1 (mod 4)`; otherwise it returns a video whose frame count is the
smallest `T' > T` with `T' ≡ 1 (mod 4)`, whose first `T` frames equal the
input, and whose appended frames are all copies of the input's last frame. -/
theorem cut_videos_pads_with_last_frame_to_4n1
    {α : Type} [Inhabited α] (videos : List α) (hne : videos ≠ []) :
    (videos.length % 4 = 1 → cutVideos videos = videos) ∧
    (videos.length % 4 ≠ 1 →
      (cutVideos videos).length % 4 = 1 ∧
      videos.length < (cutVideos videos).length ∧
      (∀ m, videos.length < m → m < (cutVideos videos).length → m % 4 ≠ 1) ∧
      (cutVideos videos).take videos.length = videos ∧
      ∀ f ∈ (cutVideos videos).drop videos.length, f = videos.getLast hne) := by
  constructor
  · intro h
    unfold cutVideos
    simp [h]
  · intro h
    have hlen := cutVideos_length (α := α) videos
    refine ⟨?_, ?_, ?_, ?_, ?_⟩
    · rw [hlen]; unfold cutLen; simp only [h, if_false]; omega
    · rw [hlen]; unfold cutLen; simp only [h, if_false]; omega
    · intro m h1 h2
      rw [hlen] at h2
      unfold cutLen at h2
      simp only [h, if_false] at h2
      omega
    · unfold cutVideos
      simp only [h, if_false]
      exact List.take_left videos _
    · intro f hf
      unfold cutVideos at hf
      simp only [h, if_false, List.drop_append_of_le_length (le_refl _),
        List.drop_length, List.nil_append] at hf
      have := List.eq_of_mem_replicate hf
      rw [this, List.getLastD_eq_getLast?, List.getLast?_eq_getLast videos hne]
      rfl

/-- Witness for `cut_videos_pads_with_last_frame_to_4n1` at the concrete
three-frame video `[10, 20, 30]` (3 % 4 ≠ 1, so two copies of frame `30`
are appended to reach five frames). -/
theorem cut_videos_pads_with_last_frame_to_4n1_witness :
    (([10, 20, 30] : List ℕ).length % 4 = 1 →
        cutVideos [10, 20, 30] = [10, 20, 30]) ∧
    (([10, 20, 30] : List ℕ).length % 4 ≠ 1 →
      (cutVideos ([10, 20, 30] : List ℕ)).length % 4 = 1 ∧
      ([10, 20, 30] : List ℕ).length < (cutVideos ([10, 20, 30] : List ℕ)).length ∧
      (∀ m, ([10, 20, 30] : List ℕ).length < m →
        m < (cutVideos ([10, 20, 30] : List ℕ)).length → m % 4 ≠ 1) ∧
      (cutVideos ([10, 20, 30] : List ℕ)).take ([10, 20, 30] : List ℕ).length
          = [10, 20, 30] ∧
      ∀ f ∈ (cutVideos ([10, 20, 30] : List ℕ)).drop ([10, 20, 30] : List ℕ).length,
        f = ([10, 20, 30] : List ℕ).getLast (by decide)) :=
  cut_videos_pads_with_last_frame_to_4n1 [10, 20, 30] (by decide)

/-- C2: the dtype table holds in `generation_step` (FP8 → BF16/BF16,
FP16 → FP16/FP16, otherwise BF16/BF16), but `inference` diverges from it:
it casts text embeddings and latents to FP16 for FP8 weights (its own
comment announces BFloat16) and to BF16 for FP16 weights. -/
theorem inference_target_dtype_contradicts_planner_table :
    generationStepDtypes .float8e4m3fn = (.bfloat16, .bfloat16) ∧
    generationStepDtypes .float8e5m2 = (.bfloat16, .bfloat16) ∧
    generationStepDtypes .float16 = (.float16, .float16) ∧
    generationStepDtypes .bfloat16 = (.bfloat16, .bfloat16) ∧
    generationLoopDtypes .float8e4m3fn = (.bfloat16, .bfloat16, .bfloat16) ∧
    generationLoopDtypes .float16 = (.float16, .float16, .float16) ∧
    inferenceTargetDtype .float8e4m3fn = .float16 ∧
    inferenceTargetDtype .float8e4m3fn ≠ .bfloat16 ∧
    inferenceTargetDtype .float8e5m2 = .float16 ∧
    inferenceTargetDtype .float16 = .bfloat16 ∧
    inferenceTargetDtype .float16 ≠ .float16 ∧
    inferenceTargetDtype .bfloat16 = .bfloat16 := by
  decide

theorem batchOutputLen_eq (N s e : ℕ) : batchOutputLen N s e = e - s := by
  have hge := cutLen_ge (e - s)
  simp only [batchOutputLen, vaeRoundTripLen]
  by_cases h : 5 ≤ N ∧ (e - s) % 4 ≠ 1
  · simp only [if_pos h]
    split <;> omega
  · simp only [if_neg h]
    split <;> omega

theorem batchRangesFrom_get? (N bs ov step : ℕ) :
    ∀ fuel i k r, (batchRangesFrom N bs ov step fuel i).get? k = some r →
      r = (i + k * step, min (i + k * step + bs) N) := by
  intro fuel
  induction fuel with
  | zero => intro i k r h; simp [batchRangesFrom] at h
  | succ fuel ih =>
    intro i k r h
    unfold batchRangesFrom at h
    by_cases hi : i < N
    · simp only [hi, if_true] at h
      by_cases hbrk : i ≠ 0 ∧ min (i + bs) N - i ≤ ov
      · simp [hbrk] at h
      · simp only [hbrk, if_false] at h
        cases k with
        | zero =>
          simp only [List.get?_cons_zero, Option.some.injEq] at h
          rw [← h]
          congr 1 <;> omega
        | succ k =>
          simp only [List.get?_cons_succ] at h
          have h2 := ih (i + step) k r h
          rw [h2]
          have h3 : i + step + k * step = i + (k + 1) * step := by ring
          rw [h3]
    · simp [hi] at h

theorem batchRangesFrom_overlap_lt (N bs ov step : ℕ) :
    ∀ fuel i k r, i ≠ 0 → (batchRangesFrom N bs ov step fuel i).get? k = some r →
      ov < r.2 - r.1 := by
  intro fuel
  induction fuel with
  | zero => intro i k r _ h; simp [batchRangesFrom] at h
  | succ fuel ih =>
    intro i k r hi0 h
    unfold batchRangesFrom at h
    by_cases hi : i < N
    · simp only [hi, if_true] at h
      by_cases hbrk : i ≠ 0 ∧ min (i + bs) N - i ≤ ov
      · simp [hbrk] at h
      · simp only [hbrk, if_false] at h
        push_neg at hbrk
        have hov := hbrk hi0
        cases k with
        | zero =>
          simp only [List.get?_cons_zero, Option.some.injEq] at h
          rw [← h]
          simpa using hov
        | succ k =>
          simp only [List.get?_cons_succ] at h
          by_cases hstep : i + step = 0
          · omega
          · exact ih (i + step) k r hstep h
    · simp [hi] at h

theorem batchRangesFrom_stop (N bs ov step fuel i : ℕ) (h : N ≤ i) :
    batchRangesFrom N bs ov step fuel i = [] := by
  cases fuel with
  | zero => rfl
  | succ f =>
    unfold batchRangesFrom
    rw [if_neg (by omega)]

theorem batchRangesFrom_sum_zero_ov (N bs : ℕ) (hbs : 1 ≤ bs) :
    ∀ fuel i, N - i ≤ fuel →
      ((batchRangesFrom N bs 0 bs fuel i).map (fun r => r.2 - r.1)).sum = N - i := by
  intro fuel
  induction fuel with
  | zero =>
    intro i hfu
    have : N ≤ i := by omega
    rw [batchRangesFrom_stop N bs 0 bs 0 i this]
    simp
    omega
  | succ f ih =>
    intro i hfu
    by_cases hi : i < N
    · unfold batchRangesFrom
      rw [if_pos hi, if_neg (by omega)]
      have hrest := ih (i + bs) (by omega)
      simp only [List.map_cons, List.sum_cons, hrest]
      omega
    · rw [batchRangesFrom_stop N bs 0 bs (f + 1) i (by omega)]
      simp
      omega

theorem batchRanges_zero_ov (N bs : ℕ) (hbs : 1 ≤ bs) :
    batchRanges N bs 0 = batchRangesFrom N bs 0 bs (N + 1) 0 := by
  unfold batchRanges stepAndOverlap
  have h : ¬((bs : ℤ) - ((0 : ℕ) : ℤ) ≤ 0) := by push_cast; omega
  simp [h]

/-- C1 counterexample: for `N = 91` input frames, `batch_size = 89` and
`temporal_overlap = 8`, the two executed batches cover frames 0-88 and
81-90, the overlap frames 81-88 are emitted by both batches because the
overlap trim is absent (`generation.py` line 464-465 is commented out),
and the returned tensor holds 99 frames, not 91. -/
theorem generation_loop_output_frames_counterexample :
    totalOutputFrames 91 89 8 = 99 ∧ totalOutputFrames 91 89 8 ≠ 91 := by
  constructor <;> decide

/-- C1 amended: the tensor returned by `generation_loop` holds the sum of
`end − start` over the executed batches.  This equals `N` whenever
`temporal_overlap = 0`, and also whenever one batch covers all frames
(`N ≤ batch_size`); with `temporal_overlap > 0` and several batches the
overlap frames are duplicated, so the count exceeds `N`. -/
theorem generation_loop_output_frames_amended :
    (∀ N bs ov : ℕ, totalOutputFrames N bs ov
        = ((batchRanges N bs ov).map (fun r => r.2 - r.1)).sum) ∧
    (∀ N bs : ℕ, 1 ≤ bs → totalOutputFrames N bs 0 = N) ∧
    (∀ N bs ov : ℕ, 1 ≤ bs → N ≤ bs → totalOutputFrames N bs ov = N) := by
  have hsum : ∀ N bs ov : ℕ, totalOutputFrames N bs ov
      = ((batchRanges N bs ov).map (fun r => r.2 - r.1)).sum := by
    intro N bs ov
    unfold totalOutputFrames
    congr 1
    exact List.map_congr_left (fun r _ => batchOutputLen_eq N r.1 r.2)
  refine ⟨hsum, ?_, ?_⟩
  · intro N bs hbs
    rw [hsum, batchRanges_zero_ov N bs hbs,
      batchRangesFrom_sum_zero_ov N bs hbs (N + 1) 0 (by omega)]
    omega
  · intro N bs ov hbs hN
    rcases Nat.eq_zero_or_pos N with hN0 | hN1
    · subst hN0
      rw [hsum]
      unfold batchRanges
      rw [batchRangesFrom_stop _ _ _ _ _ _ (by omega)]
      rfl
    · rw [hsum]
      unfold batchRanges stepAndOverlap
      by_cases hc : (bs : ℤ) - (ov : ℤ) ≤ 0
      · -- clamped: step = bs, overlap forced to 0
        simp only [if_pos hc]
        unfold batchRangesFrom
        rw [if_pos (by omega)]
        rw [if_neg (by simp)]
        rw [batchRangesFrom_stop _ _ _ _ _ _ (by simp; omega)]
        simp
        omega
      · -- step = bs - ov ≥ 1
        simp only [if_neg hc]
        unfold batchRangesFrom
        rw [if_pos (by omega)]
        rw [if_neg (by simp)]
        by_cases h2 : ((bs : ℤ) - (ov : ℤ)).toNat < N
        · obtain ⟨m, rfl⟩ : ∃ m, N = m + 1 := ⟨N - 1, by omega⟩
          unfold batchRangesFrom
          rw [if_pos (by simpa using h2)]
          rw [if_pos (by constructor <;> [omega; (simp; omega)])]
          simp
          omega
        · rw [batchRangesFrom_stop _ _ _ _ _ _ (by omega)]
          simp
          omega

/-- Witness for `generation_loop_output_frames_amended`: 12 frames at batch
size 5 with no overlap give 12 output frames; 7 frames fitting in a single
batch of 9 give 7 output frames even with overlap 4. -/
theorem generation_loop_output_frames_amended_witness :
    totalOutputFrames 12 5 0 = 12 ∧ totalOutputFrames 7 9 4 = 7 :=
  ⟨generation_loop_output_frames_amended.2.1 12 5 (by decide),
   generation_loop_output_frames_amended.2.2 7 9 4 (by decide) (by decide)⟩

/-- C5: the iteration step of `generation_loop` is
`batch_size − temporal_overlap`, clamped to `batch_size` (with the overlap
forced to 0) when not positive; batch `k` starts at origin `k·step` and
spans `start = k·step` to `end = min(start + batch_size, N)`; a batch with
index ≥ 1 is only emitted when `end − start > temporal_overlap` (the loop
breaks otherwise); and for `N = 91`, `batch_size = 89`,
`temporal_overlap = 8` exactly the two batches `(0, 89)` and `(81, 91)`
run. -/
theorem generation_loop_batching :
    (∀ bs ov : ℤ,
      (bs - ov ≤ 0 → stepAndOverlap bs ov = (bs, 0)) ∧
      (0 < bs - ov → stepAndOverlap bs ov = (bs - ov, ov))) ∧
    (∀ N bs ov k : ℕ, ∀ r : ℕ × ℕ, (batchRanges N bs ov).get? k = some r →
      r = (k * (stepAndOverlap (bs : ℤ) (ov : ℤ)).1.toNat,
        min (k * (stepAndOverlap (bs : ℤ) (ov : ℤ)).1.toNat + bs) N)) ∧
    (∀ N bs ov k : ℕ, ∀ r : ℕ × ℕ, 1 ≤ bs → 1 ≤ k →
      (batchRanges N bs ov).get? k = some r →
      (stepAndOverlap (bs : ℤ) (ov : ℤ)).2.toNat < r.2 - r.1) ∧
    batchRanges 91 89 8 = [(0, 89), (81, 91)] := by
  refine ⟨?_, ?_, ?_, by decide⟩
  · intro bs ov
    constructor
    · intro h
      unfold stepAndOverlap
      rw [if_pos h]
    · intro h
      unfold stepAndOverlap
      rw [if_neg (by omega)]
  · intro N bs ov k r h
    unfold batchRanges at h
    have := batchRangesFrom_get? N bs
      (stepAndOverlap (bs : ℤ) (ov : ℤ)).2.toNat
      (stepAndOverlap (bs : ℤ) (ov : ℤ)).1.toNat (N + 1) 0 k r h
    rw [this]
    congr 1 <;> omega
  · intro N bs ov k r hbs hk h
    unfold batchRanges at h
    have hstep : (stepAndOverlap (bs : ℤ) (ov : ℤ)).1.toNat ≠ 0 := by
      unfold stepAndOverlap
      by_cases hc : (bs : ℤ) - (ov : ℤ) ≤ 0
      · rw [if_pos hc]; simp; omega
      · rw [if_neg hc]; simp; omega
    unfold batchRangesFrom at h
    by_cases hN : 0 < N
    · rw [if_pos hN, if_neg (by simp)] at h
      obtain ⟨k', rfl⟩ : ∃ k', k = k' + 1 := ⟨k - 1, by omega⟩
      simp only [List.get?_cons_succ] at h
      exact batchRangesFrom_overlap_lt N bs
        (stepAndOverlap (bs : ℤ) (ov : ℤ)).2.toNat
        (stepAndOverlap (bs : ℤ) (ov : ℤ)).1.toNat N _ k' r (by omega) h
    · rw [if_neg hN] at h
      simp at h

/-- Witness for `generation_loop_batching` at `N = 91`, `batch_size = 89`,
`temporal_overlap = 8`, second batch `(81, 91)`. -/
theorem generation_loop_batching_witness :
    ((81, 91) : ℕ × ℕ) = (1 * (stepAndOverlap ((89 : ℕ) : ℤ) ((8 : ℕ) : ℤ)).1.toNat,
      min (1 * (stepAndOverlap ((89 : ℕ) : ℤ) ((8 : ℕ) : ℤ)).1.toNat + 89) 91) ∧
    (stepAndOverlap ((89 : ℕ) : ℤ) ((8 : ℕ) : ℤ)).2.toNat
      < ((81, 91) : ℕ × ℕ).2 - ((81, 91) : ℕ × ℕ).1 ∧
    stepAndOverlap (89 : ℤ) (8 : ℤ) = (81, 8) :=
  ⟨generation_loop_batching.2.1 91 89 8 1 (81, 91) (by decide),
   generation_loop_batching.2.2.1 91 89 8 1 (81, 91) (by decide) (by decide) (by decide),
   (generation_loop_batching.1 89 8).2 (by decide)⟩

theorem getCondition_sr (latent latentBlur : Tensor4) :
    getCondition latent latentBlur "sr"
      = .ok ⟨latent.t, latent.h, latent.w, latent.c + 1,
          srCondData latentBlur latent.c⟩ := by
  unfold getCondition
  by_cases ht : latent.t = 1
  · rw [if_pos (Or.inr ht), if_pos rfl]
  · have h1 : ¬(("sr" : String) = "t2v" ∨ latent.t = 1) := by
      push_neg
      exact ⟨by decide, ht⟩
    rw [if_neg h1, if_neg (by decide), if_neg (by decide), if_pos rfl]

theorem getCondition_t2v (latent latentBlur : Tensor4) :
    getCondition latent latentBlur "t2v"
      = .ok ⟨latent.t, latent.h, latent.w, latent.c + 1, fun _ _ _ _ => 0⟩ := by
  unfold getCondition
  rw [if_pos (Or.inl rfl), if_neg (by decide)]

theorem getCondition_i2v (latent latentBlur : Tensor4) (ht : 2 ≤ latent.t) :
    getCondition latent latentBlur "i2v"
      = .ok ⟨latent.t, latent.h, latent.w, latent.c + 1, fun i j k l =>
          if i < 1 then (if l < latent.c then latent.data i j k l else 1) else 0⟩ := by
  unfold getCondition
  have h1 : ¬(("i2v" : String) = "t2v" ∨ latent.t = 1) := by
    push_neg
    exact ⟨by decide, by omega⟩
  rw [if_neg h1, if_pos rfl]

theorem getCondition_v2v (latent latentBlur : Tensor4) (ht : 2 ≤ latent.t) :
    getCondition latent latentBlur "v2v"
      = .ok ⟨latent.t, latent.h, latent.w, latent.c + 1, fun i j k l =>
          if i < 2 then (if l < latent.c then latent.data i j k l else 1) else 0⟩ := by
  unfold getCondition
  have h1 : ¬(("v2v" : String) = "t2v" ∨ latent.t = 1) := by
    push_neg
    exact ⟨by decide, by omega⟩
  rw [if_neg h1, if_neg (by decide), if_pos rfl]

theorem getCondition_unknown (latent latentBlur : Tensor4) (ht : 2 ≤ latent.t)
    (task : String) (h : task ∉ (["t2v", "i2v", "v2v", "sr"] : List String)) :
    getCondition latent latentBlur task = .error .notImplementedError := by
  simp only [List.mem_cons, List.mem_singleton, not_or] at h
  obtain ⟨h1, h2, h3, h4, -⟩ := h
  unfold getCondition
  rw [if_neg (by push_neg; exact ⟨h1, by omega⟩), if_neg h2, if_neg h3, if_neg h4]

theorem getCondition_single_frame (latent latentBlur : Tensor4)
    (ht : latent.t = 1) (task : String) (hsr : task ≠ "sr") :
    getCondition latent latentBlur task
      = .ok ⟨latent.t, latent.h, latent.w, latent.c + 1, fun _ _ _ _ => 0⟩ := by
  unfold getCondition
  rw [if_pos (Or.inr ht), if_neg hsr]

/-- C6 counterexample: for a single-frame latent (`t = 1`) and the unknown
task tag `"xyz"`, `get_condition` does **not** raise: the `task == "t2v"
or t == 1` guard (`infer.py` line 77) routes every single-frame call away
from the final `raise NotImplementedError`, and the `"i2v"` branch is
likewise skipped, leaving the mask channel of the leading frame at 0. -/
theorem get_condition_unknown_tag_counterexample :
    getCondition ⟨1, 1, 1, 1, fun _ _ _ _ => 5⟩ ⟨1, 1, 1, 1, fun _ _ _ _ => 5⟩ "xyz"
      ≠ .error .notImplementedError ∧
    (getCondition ⟨1, 1, 1, 1, fun _ _ _ _ => 5⟩ ⟨1, 1, 1, 1, fun _ _ _ _ => 5⟩
      "xyz").isOk = true ∧
    Except.map (fun r => r.data 0 0 0 1)
      (getCondition ⟨1, 1, 1, 1, fun _ _ _ _ => 5⟩ ⟨1, 1, 1, 1, fun _ _ _ _ => 5⟩
        "i2v") = .ok 0 := by
  have h1 := getCondition_single_frame ⟨1, 1, 1, 1, fun _ _ _ _ => 5⟩
    ⟨1, 1, 1, 1, fun _ _ _ _ => 5⟩ rfl "xyz" (by decide)
  have h2 := getCondition_single_frame ⟨1, 1, 1, 1, fun _ _ _ _ => 5⟩
    ⟨1, 1, 1, 1, fun _ _ _ _ => 5⟩ rfl "i2v" (by decide)
  refine ⟨?_, ?_, ?_⟩
  · rw [h1]
    exact fun heq => Except.noConfusion heq
  · rw [h1]
    rfl
  · rw [h2]
    rfl

/-- C6 amended: `get_condition` returns a `(t, h, w, c+1)` tensor built
per task — `sr` puts the blur latent in the first `c` channels with mask 1
everywhere (for every `t`); `t2v` returns the all-zero condition; for
latents with `t ≥ 2`, `i2v` marks only the leading frame valid (copying
latent frame 0), `v2v` marks only the two leading frames valid, and any
unrecognized task raises `NotImplementedError`; but for `t = 1` every task
other than `sr` — the known ones and unknown tags alike — returns the
all-zero condition without raising. -/
theorem get_condition_per_task_amended (latent latentBlur : Tensor4) :
    (∀ task r, getCondition latent latentBlur task = .ok r →
      r.t = latent.t ∧ r.h = latent.h ∧ r.w = latent.w ∧ r.c = latent.c + 1) ∧
    (∃ r, getCondition latent latentBlur "sr" = .ok r ∧
      (∀ i j k, r.data i j k latent.c = 1) ∧
      (∀ i j k l, l < latent.c → r.data i j k l = latentBlur.data i j k l)) ∧
    (∃ r, getCondition latent latentBlur "t2v" = .ok r ∧
      ∀ i j k l, r.data i j k l = 0) ∧
    (2 ≤ latent.t →
      (∃ r, getCondition latent latentBlur "i2v" = .ok r ∧
        (∀ j k, r.data 0 j k latent.c = 1) ∧
        (∀ j k l, l < latent.c → r.data 0 j k l = latent.data 0 j k l) ∧
        (∀ i j k l, 1 ≤ i → r.data i j k l = 0)) ∧
      (∃ r, getCondition latent latentBlur "v2v" = .ok r ∧
        (∀ i j k, i < 2 → r.data i j k latent.c = 1) ∧
        (∀ i j k l, i < 2 → l < latent.c → r.data i j k l = latent.data i j k l) ∧
        (∀ i j k l, 2 ≤ i → r.data i j k l = 0)) ∧
      (∀ task, task ∉ (["t2v", "i2v", "v2v", "sr"] : List String) →
        getCondition latent latentBlur task = .error .notImplementedError)) ∧
    (latent.t = 1 → ∀ task, task ≠ "sr" →
      ∃ r, getCondition latent latentBlur task = .ok r ∧
        ∀ i j k l, r.data i j k l = 0) := by
  refine ⟨?_, ?_, ?_, ?_, ?_⟩
  · intro task r h
    simp only [getCondition] at h
    repeat' split at h
    all_goals first
      | (injection h with h; subst h; exact ⟨rfl, rfl, rfl, rfl⟩)
      | exact Except.noConfusion h
  · refine ⟨_, getCondition_sr latent latentBlur, ?_, ?_⟩
    · intro i j k
      simp [srCondData]
    · intro i j k l hl
      simp [srCondData, hl]
  · exact ⟨_, getCondition_t2v latent latentBlur, fun _ _ _ _ => rfl⟩
  · intro ht
    refine ⟨⟨_, getCondition_i2v latent latentBlur ht, ?_, ?_, ?_⟩,
      ⟨_, getCondition_v2v latent latentBlur ht, ?_, ?_, ?_⟩,
      getCondition_unknown latent latentBlur ht⟩
    · intro j k
      simp
    · intro j k l hl
      simp [hl]
    · intro i j k l hi
      simp only
      rw [if_neg (by omega)]
    · intro i j k hi
      simp only
      rw [if_pos hi, if_neg (by omega)]
    · intro i j k l hi hl
      simp only
      rw [if_pos hi, if_pos hl]
    · intro i j k l hi
      simp only
      rw [if_neg (by omega)]
  · intro ht task hsr
    exact ⟨_, getCondition_single_frame latent latentBlur ht task hsr,
      fun _ _ _ _ => rfl⟩

/-- Witness for `get_condition_per_task_amended`: a one-frame latent with
the unknown task `"foo"` yields the all-zero condition, and a two-frame
latent with `"foo"` raises `NotImplementedError`. -/
theorem get_condition_per_task_amended_witness :
    (∃ r, getCondition ⟨1, 2, 2, 1, fun _ _ _ _ => 3⟩
        ⟨1, 2, 2, 1, fun _ _ _ _ => 3⟩ "foo" = .ok r ∧
      ∀ i j k l, r.data i j k l = 0) ∧
    getCondition ⟨2, 2, 2, 1, fun _ _ _ _ => 3⟩
        ⟨2, 2, 2, 1, fun _ _ _ _ => 3⟩ "foo" = .error .notImplementedError :=
  ⟨(get_condition_per_task_amended ⟨1, 2, 2, 1, fun _ _ _ _ => 3⟩
      ⟨1, 2, 2, 1, fun _ _ _ _ => 3⟩).2.2.2.2 rfl "foo" (by decide),
   ((get_condition_per_task_amended ⟨2, 2, 2, 1, fun _ _ _ _ => 3⟩
      ⟨2, 2, 2, 1, fun _ _ _ _ => 3⟩).2.2.2.1 (by decide)).2.2 "foo" (by decide)⟩

/-- C10: `inference` called with four empty lists (so the length assertion
holds and `batch_size = 0`) returns the empty list at once with the state
untouched: the DiT and the VAE stay where they were and no memory-fraction
call is made, whatever the flags. -/
theorem inference_empty_input_returns_immediately
    (env : InferEnv) (pv ub : Bool) (dpv : Option Bool) (st0 : InferState) :
    inference env 0 0 0 0 pv ub dpv st0 = .ok ([], st0) := by
  simp [inference]

/-- C7: during a non-empty `inference` run with `use_blockswap` set (CUDA
and the fraction API available), the per-process memory fraction is set to
the governor's choice before sampling and restored to 1 after decode; the
choice is 1 (no cap) when the DiT blocks do not carry the block-swap
wrapping, 0.8 when the reserved memory after release is below 4 GB, and
0.6 otherwise; the fraction at return is always 1. -/
theorem inference_memory_fraction_governor
    (env : InferEnv) (n : ℕ) (pv : Bool) (dpv : Option Bool) (st0 : InferState)
    (hn : 1 ≤ n) (hcuda : env.cudaAvailable = true)
    (hapi : env.hasFractionAPI = true) :
    (inference env n n n n pv true dpv st0).map
        (fun p => (p.2.fractionSets, p.2.memoryFraction))
      = .ok (st0.fractionSets
          ++ [memoryFractionChoice env.blocksHaveSwap env.resAfterRelease, 1],
          1) ∧
    (env.blocksHaveSwap = false →
      memoryFractionChoice env.blocksHaveSwap env.resAfterRelease = 1) ∧
    (env.blocksHaveSwap = true → env.resAfterRelease < 4 →
      memoryFractionChoice env.blocksHaveSwap env.resAfterRelease = 8/10) ∧
    (env.blocksHaveSwap = true → ¬(env.resAfterRelease < 4) →
      memoryFractionChoice env.blocksHaveSwap env.resAfterRelease = 6/10) := by
  refine ⟨?_, ?_, ?_, ?_⟩
  · simp only [inference]
    rw [if_neg (by simp), if_neg (by omega)]
    simp only [hcuda, hapi, true_and, and_true, if_true, setFraction,
      Except.map, apply_ite InferState.fractionSets,
      apply_ite InferState.memoryFraction]
    split <;> split <;> split <;> split <;> simp
  · intro h
    simp [memoryFractionChoice, h]
  · intro h hres
    simp [memoryFractionChoice, h, hres]
  · intro h hres
    simp [memoryFractionChoice, h, hres]

/-- Witness for `inference_memory_fraction_governor` at a concrete run:
one sample, CUDA and the fraction API present, blocks not wrapped for
swap, starting from a fresh state — the trace sets the fraction to the
choice (here 1) and then back to 1. -/
theorem inference_memory_fraction_governor_witness :
    (inference ⟨true, true, false, false, 2, 5, 5⟩ 1 1 1 1 false true none
        ⟨.cpu, .cpu, 1, []⟩).map
        (fun p => (p.2.fractionSets, p.2.memoryFraction))
      = .ok (([] : List ℚ)
          ++ [memoryFractionChoice false 2, 1], 1) ∧
    ((false = false →
      memoryFractionChoice false 2 = 1) ∧
    (false = true → (2 : ℚ) < 4 →
      memoryFractionChoice false 2 = 8/10) ∧
    (false = true → ¬((2 : ℚ) < 4) →
      memoryFractionChoice false 2 = 6/10)) :=
  ⟨(inference_memory_fraction_governor ⟨true, true, false, false, 2, 5, 5⟩ 1
      false none ⟨.cpu, .cpu, 1, []⟩ (by decide) rfl rfl).1,
   (inference_memory_fraction_governor ⟨true, true, false, false, 2, 5, 5⟩ 1
      false none ⟨.cpu, .cpu, 1, []⟩ (by decide) rfl rfl).2⟩

/-- C4 (claim false on the code — the code is the slip): tiled decode of a
single-frame latent `(1, 4, 4, 16)` with `tile_stride = tile_size = (8, 8)`
(≥ the latent's spatial extent 4×4, so a single covering tile) raises
`NameError` at the first `self.vae.decode(tile_latent, preserve_vram)`
(`infer.py` line 362) instead of producing any output, while the standard
decode of the same latent succeeds. -/
theorem tiled_decode_single_frame_nameerror :
    tiledDecodeOne mockDecode none (8, 8) (8, 8) ⟨[1, 4, 4, 16]⟩
      = .error .nameError ∧
    vaeDecodeOne mockDecode none false ⟨[1, 4, 4, 16]⟩ = .ok ⟨[3, 32, 32]⟩ ∧
    tiledDecodeOne mockDecode none (8, 8) (8, 8) ⟨[1, 4, 4, 16]⟩
      ≠ vaeDecodeOne mockDecode none false ⟨[1, 4, 4, 16]⟩ := by
  have h1 : tiledDecodeOne mockDecode none (8, 8) (8, 8) ⟨[1, 4, 4, 16]⟩
      = .error .nameError := rfl
  have h2 : vaeDecodeOne mockDecode none false ⟨[1, 4, 4, 16]⟩
      = .ok ⟨[3, 32, 32]⟩ := rfl
  refine ⟨h1, h2, ?_⟩
  rw [h1, h2]
  exact fun h => Except.noConfusion h

/-- C8 (claim false on the code — the code is the slip): for a latent whose
temporal dimension exceeds 1 the tiled decode path does not return the
standard decode's sample.  A per-sample latent `(5, 4, 4, 16)` is 4-dim, so
the `latent.shape[2] if latent.ndim >= 5 else 1` guard (`infer.py` line
314) sees temporal extent 1 and the path tiles it spatially (treating the
frames as batch) until the unbound `preserve_vram` raises `NameError` at
line 362; a batched 5-dim latent `(1, 5, 4, 4, 16)` does reach the
fallback branch, which raises the same `NameError` at line 321.  The
standard decode of the per-sample latent succeeds. -/
theorem tiled_decode_temporal_fallback_nameerror :
    tiledTemporalFrames ⟨[5, 4, 4, 16]⟩ = 1 ∧
    tiledDecodeOne mockDecode none (64, 64) (32, 32) ⟨[5, 4, 4, 16]⟩
      = .error .nameError ∧
    tiledTemporalFrames ⟨[1, 5, 4, 4, 16]⟩ = 5 ∧
    tiledDecodeOne mockDecode none (64, 64) (32, 32) ⟨[1, 5, 4, 4, 16]⟩
      = .error .nameError ∧
    vaeDecodeOne mockDecode none false ⟨[5, 4, 4, 16]⟩
      = .ok ⟨[3, 5, 32, 32]⟩ := by
  exact ⟨rfl, rfl, rfl, rfl, rfl⟩

theorem linspaceQ_length (a b : ℚ) (n : ℕ) : (linspaceQ a b n).length = n := by
  unfold linspaceQ
  split
  · simp [*]
  · simp

theorem linspaceQ_getD_lead (n i : ℕ) (h : i < n) :
    (linspaceQ 0 1 n).getD i 0 = rampValLead n i := by
  unfold linspaceQ rampValLead
  by_cases h1 : n = 1
  · subst h1
    rw [if_pos rfl, if_pos rfl]
    interval_cases i
    rfl
  · rw [if_neg h1, if_neg h1,
      List.getD_eq_getElem _ _
        (by simp only [List.length_map, List.length_range]; exact h)]
    simp only [List.getElem_map, List.getElem_range]
    ring

theorem linspaceQ_getD_trail (n i : ℕ) (h : i < n) :
    (linspaceQ 1 0 n).getD i 0 = rampValTrail n i := by
  unfold linspaceQ rampValTrail
  by_cases h1 : n = 1
  · subst h1
    rw [if_pos rfl, if_pos rfl]
    interval_cases i
    rfl
  · rw [if_neg h1, if_neg h1,
      List.getD_eq_getElem _ _
        (by simp only [List.length_map, List.length_range]; exact h)]
    simp only [List.getElem_map, List.getElem_range]
    ring

theorem replicate_one_getD (m i : ℕ) (h : i < m) :
    (List.replicate m (1 : ℚ)).getD i 0 = 1 := by
  rw [List.getD_eq_getElem _ _ (by simpa using h)]
  exact List.getElem_replicate 1 (by simpa using h)

theorem writeHead_length (l g : List ℚ) (h : g.length ≤ l.length) :
    (writeHead l g).length = l.length := by
  simp only [writeHead, List.length_append, List.length_drop]
  omega

theorem writeTail_length (l g : List ℚ) (h : g.length ≤ l.length) :
    (writeTail l g).length = l.length := by
  simp only [writeTail, List.length_append, List.length_take]
  omega

theorem writeHead_getD (l g : List ℚ) (i : ℕ) (hg : g.length ≤ l.length) :
    (writeHead l g).getD i 0
      = if i < g.length then g.getD i 0 else l.getD i 0 := by
  unfold writeHead
  by_cases h : i < g.length
  · rw [if_pos h, List.getD_append _ _ _ _ h]
  · rw [if_neg h, List.getD_append_right _ _ _ _ (by omega)]
    by_cases h2 : i < l.length
    · rw [List.getD_eq_getElem _ _ (by simp only [List.length_drop]; omega),
        List.getD_eq_getElem _ _ h2, List.getElem_drop l]
      congr 1
      omega
    · rw [List.getD_eq_default _ _ (by simp only [List.length_drop]; omega),
        List.getD_eq_default _ _ (by omega)]

theorem writeTail_getD (l g : List ℚ) (i : ℕ) (hg : g.length ≤ l.length) :
    (writeTail l g).getD i 0
      = if i < l.length - g.length then l.getD i 0
        else g.getD (i - (l.length - g.length)) 0 := by
  unfold writeTail
  have htl : (l.take (l.length - g.length)).length = l.length - g.length := by
    simp only [List.length_take]
    omega
  by_cases h : i < l.length - g.length
  · rw [if_pos h, List.getD_append _ _ _ _ (by omega),
      List.getD_eq_getElem _ _ (by omega),
      List.getD_eq_getElem _ _ (by omega), List.getElem_take l]
  · rw [if_neg h, List.getD_append_right _ _ _ _ (by omega), htl]

theorem mask1D_getD (m : ℕ) (bl bt : Bool) (border : ℤ) (i : ℕ) (hi : i < m) :
    (mask1D m bl bt border).getD i 0 = rampSpec m bl bt border i := by
  simp only [mask1D, rampSpec]
  have hlenm : min border.toNat m ≤ m := min_le_right _ _
  have hg0 : (linspaceQ 0 1 (min border.toNat m)).length = min border.toNat m :=
    linspaceQ_length _ _ _
  have hg1 : (linspaceQ 1 0 (min border.toNat m)).length = min border.toNat m :=
    linspaceQ_length _ _ _
  have hrep : (List.replicate m (1 : ℚ)).length = m := List.length_replicate _ _
  have hs1len : (if ¬bl ∧ 0 < border
      then writeHead (List.replicate m 1) (linspaceQ 0 1 (min border.toNat m))
      else List.replicate m 1).length = m := by
    split
    · rw [writeHead_length _ _ (by rw [hg0, hrep]; exact hlenm), hrep]
    · exact hrep
  have hs1getD :
      (if ¬bl ∧ 0 < border
        then writeHead (List.replicate m 1) (linspaceQ 0 1 (min border.toNat m))
        else List.replicate m 1).getD i 0
      = if ¬bl = true ∧ 0 < border ∧ i < min border.toNat m
          then rampValLead (min border.toNat m) i else 1 := by
    by_cases hb : ¬bl ∧ 0 < border
    · rw [if_pos hb, writeHead_getD _ _ _ (by rw [hg0, hrep]; exact hlenm), hg0]
      by_cases hjl : i < min border.toNat m
      · rw [if_pos hjl, if_pos ⟨hb.1, hb.2, hjl⟩, linspaceQ_getD_lead _ i hjl]
      · rw [if_neg hjl,
          if_neg (show ¬(¬bl = true ∧ 0 < border ∧ i < min border.toNat m) from
            fun hc => hjl hc.2.2),
          replicate_one_getD m i hi]
    · rw [if_neg hb, replicate_one_getD m i hi,
        if_neg (show ¬(¬bl = true ∧ 0 < border ∧ i < min border.toNat m) from
          fun hc => hb ⟨hc.1, hc.2.1⟩)]
  by_cases hbt : ¬bt ∧ 0 < border
  · rw [if_pos hbt,
      writeTail_getD _ _ _ (by rw [hg1, hs1len]; exact hlenm), hg1, hs1len]
    by_cases hin : i < m - min border.toNat m
    · rw [if_pos hin, hs1getD,
        if_neg (show ¬(¬bt = true ∧ 0 < border ∧ m - min border.toNat m ≤ i) from
          fun hc => by omega)]
    · rw [if_neg hin,
        if_pos (show ¬bt = true ∧ 0 < border ∧ m - min border.toNat m ≤ i from
          ⟨hbt.1, hbt.2, by omega⟩),
        linspaceQ_getD_trail _ (i - (m - min border.toNat m)) (by omega)]
  · rw [if_neg hbt, hs1getD,
      if_neg (show ¬(¬bt = true ∧ 0 < border ∧ m - min border.toNat m ≤ i) from
        fun hc => hbt ⟨hc.1, hc.2.1⟩)]

theorem foldl_applyTile_fst (tiles : List TileContrib) (f0 g0 : ℕ → ℕ → ℚ)
    (i j : ℕ) :
    (tiles.foldl applyTile (f0, g0)).1 i j
      = f0 i j + ((tiles.filter (fun t => coversTile t i j)).map
          (fun t => t.sample (i - t.oy) (j - t.ox) * t.mask (i - t.oy) (j - t.ox))).sum := by
  induction tiles generalizing f0 g0 with
  | nil => simp
  | cons t ts ih =>
    rw [List.foldl_cons, ih]
    by_cases hc : coversTile t i j
    · simp only [applyTile, hc, if_true, List.filter_cons, List.map_cons,
        List.sum_cons]
      ring
    · simp only [applyTile, hc, if_false, List.filter_cons]
      simp [hc]

theorem foldl_applyTile_snd (tiles : List TileContrib) (f0 g0 : ℕ → ℕ → ℚ)
    (i j : ℕ) :
    (tiles.foldl applyTile (f0, g0)).2 i j
      = g0 i j + ((tiles.filter (fun t => coversTile t i j)).map
          (fun t => t.mask (i - t.oy) (j - t.ox))).sum := by
  induction tiles generalizing f0 g0 with
  | nil => simp
  | cons t ts ih =>
    rw [List.foldl_cons, ih]
    by_cases hc : coversTile t i j
    · simp only [applyTile, hc, if_true, List.filter_cons, List.map_cons,
        List.sum_cons]
      ring
    · simp only [applyTile, hc, if_false, List.filter_cons]
      simp [hc]

/-- C9: the blend mask of every tile is the outer product of two 1D
masks — each flat 1 except at edges not on the latent's outer boundary,
where it ramps linearly 0→1 (leading) or 1→0 (trailing) over
`min(border, extent)` samples, the border being `(tile_dim − stride_dim)·U`
at the call site (`infer.py` lines 365-370) — and the final tiled output is
the accumulated weighted sum divided by the accumulated weight clamped
below at `1e-8`. -/
theorem tile_blend_mask_outer_product_and_normalization :
    (∀ (b c h w : ℕ) (bTop bBot bLeft bRight : Bool) (bh bw : ℤ) (i j : ℕ),
      i < h → j < w →
      (createTileMask (b, c, h, w) (bTop, bBot, bLeft, bRight) (bh, bw)).at2 i j
        = rampSpec h bTop bBot bh i * rampSpec w bLeft bRight bw j) ∧
    epsClamp = 1 / 100000000 ∧
    (∀ (tiles : List TileContrib) (i j : ℕ),
      tiledBlendResult tiles i j
        = ((tiles.filter (fun t => coversTile t i j)).map
            (fun t => t.sample (i - t.oy) (j - t.ox)
              * t.mask (i - t.oy) (j - t.ox))).sum
          / max (((tiles.filter (fun t => coversTile t i j)).map
              (fun t => t.mask (i - t.oy) (j - t.ox))).sum) epsClamp) := by
  refine ⟨?_, rfl, ?_⟩
  · intro b c h w bTop bBot bLeft bRight bh bw i j hi hj
    simp only [createTileMask]
    rw [mask1D_getD h bTop bBot bh i hi, mask1D_getD w bLeft bRight bw j hj]
  · intro tiles i j
    unfold tiledBlendResult accumTiles
    rw [foldl_applyTile_fst, foldl_applyTile_snd]
    simp

/-- Witness for `tile_blend_mask_outer_product_and_normalization` at tile
extent 4×6, non-boundary top and left/right with borders 2 and 3. -/
theorem tile_blend_mask_outer_product_and_normalization_witness :
    (createTileMask (1, 3, 4, 6) (false, true, false, false)
        ((2 : ℤ), (3 : ℤ))).at2 1 2
      = rampSpec 4 false true (2 : ℤ) 1 * rampSpec 6 false false (3 : ℤ) 2 :=
  tile_blend_mask_outer_product_and_normalization.1 1 3 4 6 false true false
    false 2 3 1 2 (by decide) (by decide)
